import Mathlib

/-!
Shallow embedding of the Flip 7 rules/turn engine.

The definitions below are translated from the repository's TypeScript
sources, primarily the canonical (richer) rules module — the file that
defines `processHitAction`, `handleFlip7`, `handleBust`,
`handleSecondChance`, `getNextActivePlayer`, `shouldEndRound` and
`endRound` — and from `src/utils/cardSystem.ts` (`calculateHandScore`,
`isHandBusted`, `dealOneCard`).

Modelling conventions:
* JavaScript objects used as ordered string-keyed maps (`room.players`)
  become association lists `List (String × Player)`; iteration order is
  list order, and updating an existing key keeps its position, exactly
  as JS object spread `{...players, [id]: p}` does.
* TypeScript optional fields become `Option`; JS truthiness tests on
  numbers are modelled explicitly (`0` is falsy).
* Functions that can `throw` are modelled in `Except String`; a thrown
  exception is `.error msg`, a returned value is `.ok`.
* `Array.prototype.sort` with a comparator is stable (ES2019); it is
  modelled by a stable insertion sort over the comparator's strict
  "precedes" relation.
-/

namespace Flip7

/-! ## Data model (from the `types` module) -/

inductive ActionCardType
  | freeze
  | flipThree
  | secondChance
  deriving DecidableEq, Repr

inductive ModifierCardType
  | plus4
  | plus6
  | plus8
  | plus10
  | x2
  deriving DecidableEq, Repr

/-- `Card.type` together with the variant payload (`value`, `action`,
`modifier`): exactly one of the optional payload fields is set for each
`type` in the source, so the three well-formed combinations are one
inductive. -/
inductive CardKind
  | number (value : Nat)
  | action (a : ActionCardType)
  | modifier (m : ModifierCardType)
  deriving DecidableEq, Repr

structure Card where
  id : String
  kind : CardKind
  isVisible : Bool
  deriving DecidableEq, Repr

inductive PlayerStatus
  | active
  | stayed
  | busted
  | disconnected
  deriving DecidableEq, Repr

structure Player where
  id : String
  name : String
  hand : List Card
  roundScore : Nat
  totalScore : Nat
  status : PlayerStatus
  hasFlip7 : Bool
  isFrozen : Bool
  frozenUntilRound : Option Nat
  deriving DecidableEq, Repr

inductive GameState
  | waiting
  | playing
  | roundEnd
  | gameOver
  deriving DecidableEq, Repr

structure Room where
  players : List (String × Player)
  deck : List Card
  discardPile : List Card
  currentTurn : Option String
  state : GameState
  round : Nat
  winner : Option String
  deriving DecidableEq, Repr

/-- `MAX_ROUNDS` game constant. -/
def MAX_ROUNDS : Nat := 5

/-- `FLIP_7_BONUS` game constant. -/
def FLIP_7_BONUS : Nat := 15

/-- JS object-spread update `{...players, [id]: p}`: an existing key is
updated in place (its position in iteration order is kept). All engine
call sites update an existing key, so the not-found case keeps the list
unchanged apart from appending nothing. -/
def updateAssoc (players : List (String × Player)) (pid : String) (p : Player) :
    List (String × Player) :=
  players.map (fun e => if e.1 = pid then (pid, p) else e)

/-! ## Card & deck subsystem (`cardSystem.ts`) -/

/-- `dealOneCard`: throws `Cannot deal from empty deck` on an empty
deck, otherwise returns the front card marked visible plus the rest. -/
def dealOneCard (deck : List Card) : Except String (Card × List Card) :=
  match deck with
  | [] => .error "Cannot deal from empty deck"
  | c :: rest => .ok ({ c with isVisible := true }, rest)

/-- The values of the `number` cards of a hand, in hand order
(`cards.filter(type === number).map(value)`, undefined filtered). -/
def numberValues (cards : List Card) : List Nat :=
  cards.filterMap (fun c =>
    match c.kind with
    | .number v => some v
    | _ => none)

/-- `new Set(numbers).size`: the count of distinct elements. -/
def uniqueCount (l : List Nat) : Nat := l.dedup.length

/-- One step of the modifier loop of `calculateHandScore`: the
accumulator is `(numberCardsScore, modifierMultiplier)`. -/
def modifierStep (acc : Nat × Nat) (c : Card) : Nat × Nat :=
  match c.kind with
  | .modifier .plus4 => (acc.1 + 4, acc.2)
  | .modifier .plus6 => (acc.1 + 6, acc.2)
  | .modifier .plus8 => (acc.1 + 8, acc.2)
  | .modifier .plus10 => (acc.1 + 10, acc.2)
  | .modifier .x2 => (acc.1, acc.2 * 2)
  | _ => acc

structure HandScore where
  score : Nat
  hasFlip7 : Bool
  numberCardsBreakdown : Nat
  modifierMultiplier : Nat
  flip7Bonus : Nat
  deriving DecidableEq, Repr

/-- `calculateHandScore` from `cardSystem.ts`: duplicates mean an
immediate 0 score; otherwise sum number values, fold the modifier loop
over the whole hand, multiply, and add the flat 15 Flip-7 bonus last. -/
def calculateHandScore (cards : List Card) : HandScore :=
  let numbers := numberValues cards
  if numbers.length ≠ uniqueCount numbers then
    { score := 0, hasFlip7 := false, numberCardsBreakdown := 0
      modifierMultiplier := 1, flip7Bonus := 0 }
  else
    let acc := cards.foldl modifierStep (numbers.sum, 1)
    let hasF7 := uniqueCount numbers = 7
    let bonus := if hasF7 then 15 else 0
    { score := acc.1 * acc.2 + bonus, hasFlip7 := hasF7
      numberCardsBreakdown := acc.1, modifierMultiplier := acc.2
      flip7Bonus := bonus }

/-- `isHandBusted` from `cardSystem.ts`: false when
`calculateHandScore` reports Flip 7, otherwise true iff a duplicate
number value exists. -/
def isHandBusted (cards : List Card) : Bool :=
  if (calculateHandScore cards).hasFlip7 then
    false
  else
    let numbers := numberValues cards
    numbers.length ≠ uniqueCount numbers

/-! ## Hand evaluator (rules module) -/

/-- `hasFlip7`: seven distinct number values are present. -/
def hasFlip7 (cards : List Card) : Bool :=
  uniqueCount (numberValues cards) = 7

/-- `hasBusted`: some number value occurs more than once. -/
def hasBusted (cards : List Card) : Bool :=
  let numbers := numberValues cards
  numbers.length ≠ uniqueCount numbers

/-- `canUseSecondChance`: the hand holds a Second Chance action card. -/
def canUseSecondChance (cards : List Card) : Bool :=
  cards.any (fun c => c.kind = .action .secondChance)

/-- The duplicate-finding loop of `applySecondChance`: walk the number
values in hand order with a `seen` set, returning the first value
already seen. -/
def findDuplicate (seen : List Nat) : List Nat → Option Nat
  | [] => none
  | n :: rest => if n ∈ seen then some n else findDuplicate (n :: seen) rest

/-- `card.type === 'number' && card.value === duplicateNumber`: a
`null` duplicate never matches a number value. -/
def isDupNumberCard (dup : Option Nat) (c : Card) : Bool :=
  match c.kind, dup with
  | .number v, some d => v = d
  | _, _ => false

/-- The removal loop of `applySecondChance`: remove the first
still-unremoved Second Chance card and the first still-unremoved number
card carrying `dup`, keep everything else, preserving order. Returns
`(newCards, removedCards)`. -/
def scRemovalLoop (dup : Option Nat) :
    List Card → Bool → Bool → List Card × List Card
  | [], _, _ => ([], [])
  | c :: rest, dupRemoved, scRemoved =>
    if c.kind = .action .secondChance ∧ scRemoved = false then
      let r := scRemovalLoop dup rest dupRemoved true
      (r.1, c :: r.2)
    else if isDupNumberCard dup c = true ∧ dupRemoved = false then
      let r := scRemovalLoop dup rest true scRemoved
      (r.1, c :: r.2)
    else
      let r := scRemovalLoop dup rest dupRemoved scRemoved
      (c :: r.1, r.2)

structure SecondChanceResult where
  newCards : List Card
  removedCards : List Card
  duplicateNumber : Option Nat
  deriving DecidableEq, Repr

/-- `applySecondChance` (canonical rules module): find the first
duplicated number value, then remove exactly one Second Chance card and
exactly one card of that value. -/
def applySecondChance (cards : List Card) : SecondChanceResult :=
  let dup := findDuplicate [] (numberValues cards)
  let r := scRemovalLoop dup cards false false
  { newCards := r.1, removedCards := r.2, duplicateNumber := dup }

/-! ## Turn resolver (rules module) -/

inductive EffectType
  | freeze
  | flipThree
  | secondChance
  | bust
  | flip7
  | stay
  | gameOver
  deriving DecidableEq, Repr

structure GameEffect where
  type : EffectType
  targetPlayerId : Option String := none
  sourcePlayerId : Option String := none
  cards : Option (List Card) := none
  message : String
  deriving DecidableEq, Repr

structure GameActionResult where
  success : Bool
  message : String
  updatedRoom : Option Room := none
  effects : List GameEffect := []
  requiresTargetSelection : Bool := false
  deriving DecidableEq, Repr

/-- The frozen test of `processHitAction`:
`player.isFrozen && player.frozenUntilRound && room.round < player.frozenUntilRound`
(the truthiness test on `frozenUntilRound` makes `0` behave like
undefined). -/
def hitFrozenCheck (p : Player) (round : Nat) : Bool :=
  match p.frozenUntilRound with
  | some f => p.isFrozen && decide (0 < f) && decide (round < f)
  | none => false

/-- The frozen-skip test inside `getNextActivePlayer`:
`isFrozen && currentRound && frozenUntilRound && currentRound < frozenUntilRound`
(`currentRound` is an optional parameter and `0` is falsy). -/
def gnaFrozenSkip (p : Player) (currentRound : Option Nat) : Bool :=
  match currentRound, p.frozenUntilRound with
  | some r, some f => p.isFrozen && decide (0 < r) && decide (0 < f) && decide (r < f)
  | _, _ => false

/-- The body of the scan loop of `getNextActivePlayer` at loop counter
`i = k + 1`: look at index `(currentIndex + i) % n`, answer the id
there when that player is active and not frozen-skipped. -/
def gnaProbe (players : List (String × Player)) (ids : List String)
    (currentRound : Option Nat) (currentIndex : Int) (n : Nat) (k : Nat) :
    Option String :=
  let nextIndex := ((currentIndex + (k + 1 : Nat)) % (n : Int)).toNat
  match ids.get? nextIndex with
  | none => none
  | some nextId =>
    match players.lookup nextId with
    | none => none
    | some p =>
      if p.status = .active then
        if gnaFrozenSkip p currentRound then none else some nextId
      else none

/-- `getNextActivePlayer`: walk the turn order starting after
`currentPlayerId` (JS `indexOf` yields `-1` for an unknown id), skip
non-active and frozen players, `null` when nobody is eligible. -/
def getNextActivePlayer (players : List (String × Player))
    (currentPlayerId : String) (currentRound : Option Nat) : Option String :=
  let ids := players.map Prod.fst
  let n := ids.length
  let currentIndex : Int :=
    if currentPlayerId ∈ ids then (ids.indexOf currentPlayerId : Int) else -1
  (List.range n).findSome? (gnaProbe players ids currentRound currentIndex n)

/-- `shouldEndRound`: no player has status `active`. -/
def shouldEndRound (players : List (String × Player)) : Bool :=
  (players.filter (fun e => e.2.status = .active)).length = 0

/-! ## Round/game evaluator (rules module) -/

/-- The score-finalization loop at the top of `endRound`: active
players have their hand scored and added to the total, stayed players
have their locked `roundScore` added, everyone else gets a 0 round
score. -/
def finalizePlayer (e : String × Player) : String × Player :=
  let p := e.2
  match p.status with
  | .active =>
    (e.1, { p with status := .stayed
                   roundScore := (calculateHandScore p.hand).score
                   totalScore := p.totalScore + (calculateHandScore p.hand).score })
  | .stayed => (e.1, { p with totalScore := p.totalScore + p.roundScore })
  | _ => (e.1, { p with roundScore := 0 })

def finalizeRound (players : List (String × Player)) : List (String × Player) :=
  players.map finalizePlayer

/-- The `endRound` sort comparator, as the strict "a precedes b"
relation (`comparator(a, b) < 0`): higher total score first, then
higher round score, then fewer cards in hand. -/
def winnerBeats (a b : String × Player) : Bool :=
  if a.2.totalScore ≠ b.2.totalScore then decide (b.2.totalScore < a.2.totalScore)
  else if a.2.roundScore ≠ b.2.roundScore then decide (b.2.roundScore < a.2.roundScore)
  else decide (a.2.hand.length < b.2.hand.length)

/-- Stable insertion step for a comparator-based sort: `x` is placed
before the first element it strictly precedes, after everything it
ties with (ES2019 `sort` is stable). -/
def insertSorted (x : String × Player) : List (String × Player) → List (String × Player)
  | [] => [x]
  | y :: l => if winnerBeats x y then x :: y :: l else y :: insertSorted x l

/-- Stable sort by the `endRound` comparator, processing the entries in
their original order. -/
def sortPlayers (l : List (String × Player)) : List (String × Player) :=
  l.foldl (fun acc x => insertSorted x acc) []

/-- `gameWinner || winner`: JS `||` on (non-empty) player-id strings. -/
def orId (a b : Option String) : Option String :=
  match a with
  | some x => some x
  | none => b

/-- `endRound`: finalize scores, sort everyone, declare game over on a
200+ total or on reaching `MAX_ROUNDS`, and store the sort's first
entry as the game winner. Reading `[0]` of an empty sorted array or
the name of a missing id would throw in JS, modelled as `.error`. -/
def endRound (room : Room) (players : List (String × Player))
    (winner : Option String := none) : Except String GameActionResult := do
  let finalPlayers := finalizeRound players
  let allPlayersSorted := sortPlayers finalPlayers
  let playersWith200Plus := allPlayersSorted.filter (fun e => 200 ≤ e.2.totalScore)
  let isOver := decide (0 < playersWith200Plus.length) || decide (MAX_ROUNDS ≤ room.round)
  let gameWinner : Option String ←
    if isOver then
      match allPlayersSorted.head? with
      | none => .error "TypeError: cannot read index 0 of an empty array"
      | some top => pure (some top.1)
    else pure none
  let message : String ←
    match winner with
    | some w =>
      match players.lookup w with
      | none => .error "TypeError: winner not found in players"
      | some p => pure (p.name ++ " won with Flip 7!")
    | none =>
      match gameWinner with
      | some g =>
        match finalPlayers.lookup g with
        | none => .error "TypeError: game winner not found in players"
        | some p => pure (p.name ++ " wins with " ++ toString p.totalScore ++ " points!")
      | none => pure "Round ended"
  let shouldEndGame := decide (MAX_ROUNDS ≤ room.round) || isOver
  pure {
    success := true
    message := message
    updatedRoom := some { room with
      players := finalPlayers
      state := if shouldEndGame then .gameOver else .roundEnd
      currentTurn := none
      winner := orId gameWinner winner }
    effects := [{
      type := match winner with
        | some _ => .flip7
        | none => match gameWinner with
          | some _ => .gameOver
          | none => .stay
      targetPlayerId := orId gameWinner winner
      message := match winner with
        | some _ => "Flip 7! Round won!"
        | none => match gameWinner with
          | some _ => "Game Over! Winner declared!"
          | none => "Round ended" }] }

/-- `handleFlip7`: lock the round score as the hand score plus another
flat 15 bonus, add it to the total immediately, mark the player stayed
with `hasFlip7`, then end the round with this player as round winner. -/
def handleFlip7 (room : Room) (playerId : String) (newHand : List Card) :
    Except String GameActionResult := do
  match room.players.lookup playerId with
  | none => .error "TypeError: player undefined"
  | some player =>
    let score := (calculateHandScore newHand).score
    let flip7Bonus := 15
    let roundScore := score + flip7Bonus
    let updatedPlayers := updateAssoc room.players playerId
      { player with hand := newHand, status := .stayed
                    roundScore := roundScore
                    totalScore := player.totalScore + roundScore
                    hasFlip7 := true }
    endRound room updatedPlayers (some playerId)

/-- `handleSecondChance`: replace the hand by the post-removal hand;
the two removed cards are reported in the effect but placed nowhere
(neither deck nor discard pile). -/
def handleSecondChance (room : Room) (playerId : String) (newHand : List Card)
    (remainingDeck : List Card) : Except String GameActionResult := do
  match room.players.lookup playerId with
  | none => .error "TypeError: player undefined"
  | some player =>
    let r := applySecondChance newHand
    let updatedPlayers := updateAssoc room.players playerId
      { player with hand := r.newCards }
    let nextTurn := getNextActivePlayer updatedPlayers playerId (some room.round)
    pure {
      success := true
      message := "Used Second Chance to avoid bust"
      updatedRoom := some { room with
        players := updatedPlayers
        deck := remainingDeck
        currentTurn := nextTurn }
      effects := [{
        type := .secondChance
        targetPlayerId := some playerId
        cards := some r.removedCards
        message := player.name ++ " used Second Chance" }] }

/-- `handleBust`: auto-apply a held Second Chance, otherwise mark the
player busted with a 0 round score and advance (or end the round). -/
def handleBust (room : Room) (playerId : String) (newHand : List Card)
    (remainingDeck : List Card) : Except String GameActionResult := do
  match room.players.lookup playerId with
  | none => .error "TypeError: player undefined"
  | some player =>
    if canUseSecondChance newHand then
      handleSecondChance room playerId newHand remainingDeck
    else
      let updatedPlayers := updateAssoc room.players playerId
        { player with hand := newHand, status := .busted, roundScore := 0 }
      let nextTurn := getNextActivePlayer updatedPlayers playerId (some room.round)
      if shouldEndRound updatedPlayers then
        endRound room updatedPlayers
      else
        pure {
          success := true
          message := "Busted!"
          updatedRoom := some { room with
            players := updatedPlayers
            deck := remainingDeck
            currentTurn := nextTurn }
          effects := [{
            type := .bust
            targetPlayerId := some playerId
            message := player.name ++ " busted!" }] }

/-- `handleActionCard`: Freeze and Flip Three keep the turn with the
acting player and ask for a target; a drawn Second Chance is kept in
hand and the turn advances. -/
def handleActionCard (room : Room) (playerId : String) (card : Card)
    (newHand : List Card) (remainingDeck : List Card) :
    Except String GameActionResult := do
  match room.players.lookup playerId with
  | none => .error "TypeError: player undefined"
  | some player =>
    match card.kind with
    | .action .freeze =>
      pure {
        success := true
        message := "Choose a player to freeze"
        updatedRoom := some { room with
          players := updateAssoc room.players playerId { player with hand := newHand }
          deck := remainingDeck
          currentTurn := some playerId }
        effects := [{
          type := .freeze
          sourcePlayerId := some playerId
          message := player.name ++ " drew Freeze card - choose target" }]
        requiresTargetSelection := true }
    | .action .flipThree =>
      pure {
        success := true
        message := "Choose a player to flip three cards"
        updatedRoom := some { room with
          players := updateAssoc room.players playerId { player with hand := newHand }
          deck := remainingDeck
          currentTurn := some playerId }
        effects := [{
          type := .flipThree
          sourcePlayerId := some playerId
          message := player.name ++ " drew Flip Three card - choose target" }]
        requiresTargetSelection := true }
    | .action .secondChance =>
      let updatedPlayers := updateAssoc room.players playerId { player with hand := newHand }
      let nextTurn := getNextActivePlayer updatedPlayers playerId (some room.round)
      pure {
        success := true
        message := "Drew Second Chance card"
        updatedRoom := some { room with
          players := updatedPlayers
          deck := remainingDeck
          currentTurn := nextTurn }
        effects := [{
          type := .secondChance
          targetPlayerId := some playerId
          message := player.name ++ " drew Second Chance card" }] }
    | _ =>
      pure { success := false, message := "Unknown action card" }

/-- `processHitAction`: precondition checks, a frozen skip that deals
no card, then deal one card and run the Flip7 / bust / action-card
cascade. `dealOneCard` throws on an empty deck before the unreachable
`!newCard` structured failure is tested. -/
def processHitAction (room : Room) (playerId : String) :
    Except String GameActionResult := do
  if room.currentTurn ≠ some playerId then
    pure { success := false, message := "It's not your turn" }
  else if room.state ≠ .playing then
    pure { success := false, message := "Game is not in progress" }
  else
    match room.players.lookup playerId with
    | none => pure { success := false, message := "Player not found" }
    | some player =>
      if player.status ≠ .active then
        pure { success := false, message := "You cannot hit - you are not active" }
      else if hitFrozenCheck player room.round then
        let updatedPlayers := room.players
        let nextPlayerId := getNextActivePlayer updatedPlayers playerId (some room.round)
        pure {
          success := true
          message := player.name ++ " is frozen and skipped their turn"
          updatedRoom := some { room with
            players := updatedPlayers
            currentTurn := nextPlayerId }
          effects := [{
            type := .freeze
            targetPlayerId := some playerId
            message := "Player is frozen and skipped turn" }] }
      else do
        let deal ← dealOneCard room.deck
        let newCard := deal.1
        let remainingDeck := deal.2
        let newHand := player.hand ++ [newCard]
        if hasFlip7 newHand then
          handleFlip7 room playerId newHand
        else if hasBusted newHand then
          handleBust room playerId newHand remainingDeck
        else
          match newCard.kind with
          | .action _ => handleActionCard room playerId newCard newHand remainingDeck
          | _ =>
            let updatedPlayers := updateAssoc room.players playerId
              { player with hand := newHand }
            let nextPlayerId := getNextActivePlayer updatedPlayers playerId (some room.round)
            pure {
              success := true
              message := player.name ++ " drew " ++ newCard.id
              updatedRoom := some { room with
                players := updatedPlayers
                deck := remainingDeck
                currentTurn := nextPlayerId } }

/-! ## Concrete fixtures for evaluation theorems -/

/-- A face-up number card. -/
def numCard (i : String) (v : Nat) : Card :=
  { id := i, kind := .number v, isVisible := true }

/-- A fresh active player with an empty record. -/
def basePlayer (pid : String) : Player :=
  { id := pid, name := pid, hand := [], roundScore := 0, totalScore := 0
    status := .active, hasFlip7 := false, isFrozen := false, frozenUntilRound := none }

/-- Six distinct number cards 0–5. -/
def sixUniqueHand : List Card :=
  [numCard "a0" 0, numCard "a1" 1, numCard "a2" 2,
   numCard "a3" 3, numCard "a4" 4, numCard "a5" 5]

/-- A playing room where the single player holds 0–5 and the deck's
top card is a 6: the next hit completes Flip 7. -/
def flip7Room : Room :=
  { players := [("p1", { basePlayer "p1" with hand := sixUniqueHand })]
    deck := [numCard "d6" 6], discardPile := [], currentTurn := some "p1"
    state := .playing, round := 1, winner := none }

/-- Total number of copies of card id `i` across deck, discard pile and
every player's hand of a room. -/
def cardIdCount (room : Room) (i : String) : Nat :=
  (room.deck.map Card.id).count i + (room.discardPile.map Card.id).count i +
    ((room.players.map (fun e => (e.2.hand.map Card.id).count i)).sum)

/-- Same position as `flip7Room` but with an exhausted deck. -/
def emptyDeckRoom : Room :=
  { players := [("p1", { basePlayer "p1" with hand := [numCard "a0" 0] })]
    deck := [], discardPile := [], currentTurn := some "p1"
    state := .playing, round := 1, winner := none }

/-- Seven distinct values 0–6 plus a second 6: completion and a
duplicate at the same time. -/
def flip7DupHand : List Card :=
  sixUniqueHand ++ [numCard "a6" 6, numCard "a6b" 6]

/-- One stayed player and one active-but-frozen player. -/
def frozenBlockPlayers : List (String × Player) :=
  [("A", { basePlayer "A" with status := .stayed }),
   ("B", { basePlayer "B" with isFrozen := true, frozenUntilRound := some 2 })]

/-- Three stayed players with equal finalized totals (100 each), round
scores 10/20/10 and hand sizes 2/2/1, in a final round. -/
def tiePlayers : List (String × Player) :=
  [("p1", { basePlayer "p1" with status := .stayed, roundScore := 10, totalScore := 90
                                 hand := [numCard "x1" 1, numCard "x2" 2] }),
   ("p2", { basePlayer "p2" with status := .stayed, roundScore := 20, totalScore := 80
                                 hand := [numCard "y1" 1, numCard "y2" 2] }),
   ("p3", { basePlayer "p3" with status := .stayed, roundScore := 10, totalScore := 90
                                 hand := [numCard "z1" 1] })]

def tieRoom : Room :=
  { players := tiePlayers, deck := [], discardPile := [], currentTurn := some "p1"
    state := .playing, round := 5, winner := none }

/-! ## C1 -/

/-- C1: the claim says a hit that completes Flip 7 increases the
player's `totalScore` by exactly `score(hand)` with the 15-point bonus
counted once, and locks `roundScore` to that amount. In the code the
hand scores 36 (21 unique sum + 15 bonus), but `handleFlip7` adds a
second 15 (`roundScore = 51`) and adds it to the total, after which
`endRound` adds the stayed player's `roundScore` again
(`totalScore = 102 = 2 × 51` instead of 36). -/
theorem flip7_hit_double_counts_total :
    (calculateHandScore (sixUniqueHand ++ [{ numCard "d6" 6 with isVisible := true }])).score = 36 ∧
    ((processHitAction flip7Room "p1").map (fun r =>
        r.updatedRoom.map (fun ur =>
          (ur.players.lookup "p1").map (fun p => (p.roundScore, p.totalScore))))
      = .ok (some (some (51, 102)))) := by
  constructor
  · rfl
  · rfl

/-! ## C3 -/

/-- C3: the claim says every successful transition preserves the
multiset of card ids across deck, discard and hands. Before the hit the
drawn card's id `d6` occurs once in the whole room; in the successful
result of the Flip-7-completing hit it occurs twice (the instant-win
path drops `remainingDeck`, so the card stays in the deck while also
being appended to the winner's hand). -/
theorem flip7_hit_duplicates_card_id :
    cardIdCount flip7Room "d6" = 1 ∧
    ((processHitAction flip7Room "p1").map (fun r =>
        r.updatedRoom.map (fun ur => (cardIdCount ur "d6", r.success)))
      = .ok (some (2, true))) := by
  constructor
  · rfl
  · rfl

/-! ## C7 -/

/-- C7: the claim says a hit against an empty deck returns a structured
EmptyDeck failure and nothing is thrown across the module boundary. In
the code `dealOneCard` throws `Cannot deal from empty deck` before the
structured `No cards left in deck` branch (which tests the dealt card
for null) can run, so the caller sees an exception, not a result. -/
theorem hit_empty_deck_throws_exception :
    processHitAction emptyDeckRoom "p1" = .error "Cannot deal from empty deck" := by
  rfl

/-! ## C4 -/

/-- C4 counterexample: a hand holding the seven distinct values 0–6
and a second 6 satisfies `hasFlip7`, yet both bust predicates report it
busted — `hasBusted` has no completion exception at all, and
`isHandBusted` consults `calculateHandScore`, which denies `hasFlip7`
whenever a duplicate exists. -/
theorem flip7_duplicate_counterexample :
    hasFlip7 flip7DupHand = true ∧
    hasBusted flip7DupHand = true ∧
    isHandBusted flip7DupHand = true := by
  refine ⟨rfl, rfl, rfl⟩

/-! ## C9 -/

/-- C9 counterexample: with one stayed player and one player who is
active but frozen until round 2, scanning from the stayed player in
round 1 finds nobody eligible (`getNextActivePlayer` is null), yet
`shouldEndRound` is false because an active player still exists. -/
theorem next_active_none_round_not_ended :
    getNextActivePlayer frozenBlockPlayers "A" (some 1) = none ∧
    shouldEndRound frozenBlockPlayers = false := by
  refine ⟨rfl, rfl⟩

/-- C4 amended: once the simultaneous-duplicate case is excluded, the
implication holds: a hand with seven distinct number values and no
duplicated value is not busted under either predicate. -/
theorem flip7_without_duplicate_not_busted (cards : List Card)
    (h7 : hasFlip7 cards = true) (hnd : (numberValues cards).Nodup) :
    hasBusted cards = false ∧ isHandBusted cards = false := by
  have hlen : (numberValues cards).dedup = numberValues cards :=
    List.dedup_eq_self.mpr hnd
  have hcnt : uniqueCount (numberValues cards) = (numberValues cards).length := by
    unfold uniqueCount; rw [hlen]
  have h7' : uniqueCount (numberValues cards) = 7 := by
    unfold hasFlip7 at h7; exact of_decide_eq_true h7
  constructor
  · unfold hasBusted
    simp [hcnt]
  · unfold isHandBusted
    have hflip : (calculateHandScore cards).hasFlip7 = true := by
      unfold calculateHandScore
      rw [if_neg (by omega)]
      simpa using h7'
    simp [hflip]

/-- A hand realizing the amended C4 hypotheses: 0–6 with no
duplicate. -/
def sevenUniqueHand : List Card := sixUniqueHand ++ [numCard "a6" 6]

theorem flip7_without_duplicate_not_busted_witness :
    hasBusted sevenUniqueHand = false ∧ isHandBusted sevenUniqueHand = false :=
  flip7_without_duplicate_not_busted sevenUniqueHand (by decide) (by decide)

/-! ## C8 -/

/-- C8: a hit by a player frozen for the current round succeeds without
dealing a card: the deck, discard pile, every hand, every status and
all scores are untouched (the player map is returned as is), the result
carries a frozen-skip effect, and the only change is `currentTurn`
moving to the next eligible player. -/
theorem hit_frozen_skip_frame (room : Room) (playerId : String) (player : Player) (f : Nat)
    (hturn : room.currentTurn = some playerId)
    (hstate : room.state = .playing)
    (hlook : room.players.lookup playerId = some player)
    (hact : player.status = .active)
    (hfroz : player.isFrozen = true)
    (huntil : player.frozenUntilRound = some f)
    (hgt : room.round < f) :
    processHitAction room playerId = .ok {
      success := true
      message := player.name ++ " is frozen and skipped their turn"
      updatedRoom := some { room with
        players := room.players
        currentTurn := getNextActivePlayer room.players playerId (some room.round) }
      effects := [{
        type := .freeze
        targetPlayerId := some playerId
        message := "Player is frozen and skipped turn" }] } := by
  have h0 : 0 < f := Nat.lt_of_le_of_lt (Nat.zero_le _) hgt
  have hcheck : hitFrozenCheck player room.round = true := by
    unfold hitFrozenCheck
    rw [huntil, hfroz]
    simp [h0, hgt]
  unfold processHitAction
  rw [hturn, hstate, hlook]
  simp only [hact, hcheck]
  simp only [ne_eq, not_true_eq_false, reduceIte, if_true, if_false]
  rfl

/-- A concrete frozen-skip scenario instantiating C8. -/
def frozenHitRoom : Room :=
  { players := [("p1", { basePlayer "p1" with isFrozen := true, frozenUntilRound := some 2 }),
                ("p2", basePlayer "p2")]
    deck := [numCard "d0" 0], discardPile := [], currentTurn := some "p1"
    state := .playing, round := 1, winner := none }

theorem hit_frozen_skip_frame_witness :
    processHitAction frozenHitRoom "p1" = .ok {
      success := true
      message := "p1 is frozen and skipped their turn"
      updatedRoom := some { frozenHitRoom with
        players := frozenHitRoom.players
        currentTurn := getNextActivePlayer frozenHitRoom.players "p1" (some 1) }
      effects := [{
        type := .freeze
        targetPlayerId := some "p1"
        message := "Player is frozen and skipped turn" }] } :=
  hit_frozen_skip_frame frozenHitRoom "p1"
    { basePlayer "p1" with isFrozen := true, frozenUntilRound := some 2 } 2
    rfl rfl rfl rfl rfl rfl (by decide)

/-! ## C5 -/

/-- The face value a Plus modifier contributes (0 for anything else);
part of the claim's formula, stated independently of the scoring
loop. -/
def plusValue (c : Card) : Nat :=
  match c.kind with
  | .modifier .plus4 => 4
  | .modifier .plus6 => 6
  | .modifier .plus8 => 8
  | .modifier .plus10 => 10
  | _ => 0

def plusModifierSum (cards : List Card) : Nat := (cards.map plusValue).sum

/-- How many DoubleScore (`x2`) modifiers the hand holds. -/
def doubleCount (cards : List Card) : Nat :=
  cards.countP (fun c => c.kind = .modifier .x2)

/-- Sum of the distinct number values of the hand. -/
def distinctNumberSum (cards : List Card) : Nat := (numberValues cards).dedup.sum

theorem foldl_modifierStep (cards : List Card) (s m : Nat) :
    cards.foldl modifierStep (s, m) =
      (s + plusModifierSum cards, m * 2 ^ doubleCount cards) := by
  induction cards generalizing s m with
  | nil => simp [plusModifierSum, doubleCount]
  | cons c rest ih =>
    obtain ⟨i, kind, vis⟩ := c
    cases kind with
    | number v =>
      simp only [List.foldl_cons, modifierStep, plusModifierSum, doubleCount] at ih ⊢
      rw [ih]
      simp [plusValue, List.countP_cons]
    | action a =>
      simp only [List.foldl_cons, modifierStep, plusModifierSum, doubleCount] at ih ⊢
      rw [ih]
      simp [plusValue, List.countP_cons]
    | modifier mv =>
      cases mv <;>
        · simp only [List.foldl_cons, modifierStep, plusModifierSum, doubleCount] at ih ⊢
          rw [ih]
          simp [plusValue, List.countP_cons]
          ring

theorem isHandBusted_eq_hasBusted (cards : List Card) :
    isHandBusted cards = hasBusted cards := by
  unfold isHandBusted hasBusted calculateHandScore
  by_cases h : (numberValues cards).length ≠ uniqueCount (numberValues cards)
  · simp [h]
  · simp [h]

/-- C5: a busted hand scores 0; otherwise the total is the sum of the
distinct number values plus the Plus-modifier face values, doubled once
per DoubleScore card, with the flat 15 completion bonus added after the
multiplication exactly when seven distinct values are present. -/
theorem calculateHandScore_formula (cards : List Card) :
    (isHandBusted cards = true → (calculateHandScore cards).score = 0) ∧
    (isHandBusted cards = false →
      (calculateHandScore cards).score =
        (distinctNumberSum cards + plusModifierSum cards) * 2 ^ doubleCount cards +
          (if hasFlip7 cards = true then 15 else 0)) := by
  constructor
  · intro hb
    rw [isHandBusted_eq_hasBusted] at hb
    unfold hasBusted at hb
    unfold calculateHandScore
    rw [if_pos (by simpa using hb)]
  · intro hb
    rw [isHandBusted_eq_hasBusted] at hb
    unfold hasBusted at hb
    have hlen : (numberValues cards).length = uniqueCount (numberValues cards) := by
      by_contra hne
      simp [hne] at hb
    have hdedup : (numberValues cards).dedup = numberValues cards := by
      refine List.Sublist.eq_of_length (List.dedup_sublist _) ?_
      exact (hlen).symm
    unfold calculateHandScore
    rw [if_neg (by omega)]
    simp only [foldl_modifierStep]
    unfold distinctNumberSum hasFlip7
    rw [hdedup]
    simp only [one_mul, decide_eq_true_eq]

/-- A concrete non-busted hand exercising the C5 formula:
3 + 5 numbers, one `+4` and one `x2` give (8 + 4) × 2 = 24. -/
def scoreHand : List Card :=
  [numCard "s3" 3, numCard "s5" 5,
   { id := "sx2", kind := .modifier .x2, isVisible := true },
   { id := "sp4", kind := .modifier .plus4, isVisible := true }]

theorem calculateHandScore_formula_witness :
    isHandBusted scoreHand = false ∧ (calculateHandScore scoreHand).score = 24 := by
  refine ⟨rfl, ?_⟩
  have h := (calculateHandScore_formula scoreHand).2 rfl
  rw [h]
  rfl

/-! ## C2 -/

/-- Stated from the claim's words: `d` is the first-encountered
duplicated value in scan order — the scan prefix strictly before the
occurrence that repeats is duplicate-free and already contains `d`. -/
def FirstDuplicatedValue (l : List Nat) (d : Nat) : Prop :=
  ∃ pre post, l = pre ++ d :: post ∧ d ∈ pre ∧ pre.Nodup

theorem findDuplicate_sound (l : List Nat) : ∀ (seen : List Nat) (d : Nat),
    findDuplicate seen l = some d →
    ∃ pre post, l = pre ++ d :: post ∧ (d ∈ seen ∨ d ∈ pre) ∧
      (∀ a ∈ pre, a ∉ seen) ∧ pre.Nodup := by
  induction l with
  | nil => intro seen d h; simp [findDuplicate] at h
  | cons n rest ih =>
    intro seen d h
    unfold findDuplicate at h
    by_cases hn : n ∈ seen
    · rw [if_pos hn] at h
      obtain rfl : n = d := by injection h
      exact ⟨[], rest, by simp, Or.inl hn, by simp, List.nodup_nil⟩
    · rw [if_neg hn] at h
      obtain ⟨pre', post', heq, hd, hnotin, hnd⟩ := ih (n :: seen) d h
      refine ⟨n :: pre', post', by simp [heq], ?_, ?_, ?_⟩
      · rcases hd with hseen | hpre
        · rcases List.mem_cons.mp hseen with rfl | hs
          · exact Or.inr (List.mem_cons_self _ _)
          · exact Or.inl hs
        · exact Or.inr (List.mem_cons_of_mem _ hpre)
      · intro a ha
        rcases List.mem_cons.mp ha with rfl | hp
        · exact hn
        · exact fun hs => hnotin a hp (List.mem_cons_of_mem _ hs)
      · refine List.nodup_cons.mpr ⟨?_, hnd⟩
        intro hmem
        exact hnotin n hmem (List.mem_cons_self _ _)

theorem findDuplicate_none (l : List Nat) : ∀ seen,
    findDuplicate seen l = none → l.Nodup ∧ ∀ a ∈ l, a ∉ seen := by
  induction l with
  | nil => intro seen _; exact ⟨List.nodup_nil, by simp⟩
  | cons n rest ih =>
    intro seen h
    unfold findDuplicate at h
    by_cases hn : n ∈ seen
    · rw [if_pos hn] at h; exact absurd h (by simp)
    · rw [if_neg hn] at h
      obtain ⟨hnd, hni⟩ := ih _ h
      refine ⟨List.nodup_cons.mpr ⟨fun hmem => hni n hmem (List.mem_cons_self _ _), hnd⟩, ?_⟩
      intro a ha
      rcases List.mem_cons.mp ha with rfl | hp
      · exact hn
      · exact fun hs => hni a hp (List.mem_cons_of_mem _ hs)

theorem sc_not_dup {d : Nat} {c : Card} (h : c.kind = .action .secondChance) :
    isDupNumberCard (some d) c = false := by
  unfold isDupNumberCard
  rw [h]

theorem dup_not_sc {d : Nat} {c : Card} (h : isDupNumberCard (some d) c = true) :
    ¬ c.kind = .action .secondChance := by
  intro hk
  rw [sc_not_dup hk] at h
  exact Bool.false_ne_true h

theorem scRemovalLoop_cons (dup : Option Nat) (c : Card) (rest : List Card)
    (dr sr : Bool) :
    scRemovalLoop dup (c :: rest) dr sr =
      if c.kind = .action .secondChance ∧ sr = false then
        ((scRemovalLoop dup rest dr true).1, c :: (scRemovalLoop dup rest dr true).2)
      else if isDupNumberCard dup c = true ∧ dr = false then
        ((scRemovalLoop dup rest true sr).1, c :: (scRemovalLoop dup rest true sr).2)
      else
        (c :: (scRemovalLoop dup rest dr sr).1, (scRemovalLoop dup rest dr sr).2) := rfl

theorem scRemovalLoop_done (dup : Option Nat) (cards : List Card) :
    scRemovalLoop dup cards true true = (cards, []) := by
  induction cards with
  | nil => rfl
  | cons c rest ih =>
    unfold scRemovalLoop
    rw [if_neg (by simp), if_neg (by simp)]
    simp [ih]

theorem scRemovalLoop_dupOnly (d : Nat) (cards : List Card)
    (hq : ∃ c ∈ cards, isDupNumberCard (some d) c = true) :
    ∃ q, isDupNumberCard (some d) q = true ∧
      (scRemovalLoop (some d) cards false true).2 = [q] ∧
      (scRemovalLoop (some d) cards false true).1.Sublist cards ∧
      (scRemovalLoop (some d) cards false true).1.length + 1 = cards.length ∧
      cards.Perm ((scRemovalLoop (some d) cards false true).1 ++ [q]) := by
  induction cards with
  | nil => simp at hq
  | cons c rest ih =>
    by_cases hqc : isDupNumberCard (some d) c = true
    · have hval : scRemovalLoop (some d) (c :: rest) false true = (rest, [c]) := by
        rw [scRemovalLoop_cons]
        rw [if_neg (by simp), if_pos ⟨hqc, rfl⟩, scRemovalLoop_done]
      refine ⟨c, hqc, by rw [hval], ?_, by rw [hval]; rfl, ?_⟩
      · rw [hval]; exact List.sublist_cons_self _ _
      · rw [hval]; exact (List.perm_append_singleton _ _).symm
    · have hval : scRemovalLoop (some d) (c :: rest) false true =
          (c :: (scRemovalLoop (some d) rest false true).1,
           (scRemovalLoop (some d) rest false true).2) := by
        rw [scRemovalLoop_cons]
        rw [if_neg (by simp), if_neg (by simp [hqc])]
      have hq' : ∃ c' ∈ rest, isDupNumberCard (some d) c' = true := by
        obtain ⟨x, hx, hxq⟩ := hq
        rcases List.mem_cons.mp hx with rfl | hr
        · exact absurd hxq hqc
        · exact ⟨x, hr, hxq⟩
      obtain ⟨q, hqq, hrem, hsub, hlen, hperm⟩ := ih hq'
      refine ⟨q, hqq, ?_, ?_, ?_, ?_⟩
      · rw [hval]; exact hrem
      · rw [hval]; exact hsub.cons₂ c
      · rw [hval]; simpa using hlen
      · rw [hval]; simpa using hperm.cons c

theorem scRemovalLoop_scOnly (dup : Option Nat) (cards : List Card)
    (hp : ∃ c ∈ cards, c.kind = .action .secondChance) :
    ∃ q, q.kind = .action .secondChance ∧
      (scRemovalLoop dup cards true false).2 = [q] ∧
      (scRemovalLoop dup cards true false).1.Sublist cards ∧
      (scRemovalLoop dup cards true false).1.length + 1 = cards.length ∧
      cards.Perm ((scRemovalLoop dup cards true false).1 ++ [q]) := by
  induction cards with
  | nil => simp at hp
  | cons c rest ih =>
    by_cases hpc : c.kind = .action .secondChance
    · have hval : scRemovalLoop dup (c :: rest) true false = (rest, [c]) := by
        rw [scRemovalLoop_cons]
        rw [if_pos ⟨hpc, rfl⟩, scRemovalLoop_done]
      refine ⟨c, hpc, by rw [hval], ?_, by rw [hval]; rfl, ?_⟩
      · rw [hval]; exact List.sublist_cons_self _ _
      · rw [hval]; exact (List.perm_append_singleton _ _).symm
    · have hval : scRemovalLoop dup (c :: rest) true false =
          (c :: (scRemovalLoop dup rest true false).1,
           (scRemovalLoop dup rest true false).2) := by
        rw [scRemovalLoop_cons]
        rw [if_neg (by simp [hpc]), if_neg (by simp)]
      have hp' : ∃ c' ∈ rest, c'.kind = .action .secondChance := by
        obtain ⟨x, hx, hxp⟩ := hp
        rcases List.mem_cons.mp hx with rfl | hr
        · exact absurd hxp hpc
        · exact ⟨x, hr, hxp⟩
      obtain ⟨q, hqq, hrem, hsub, hlen, hperm⟩ := ih hp'
      refine ⟨q, hqq, ?_, ?_, ?_, ?_⟩
      · rw [hval]; exact hrem
      · rw [hval]; exact hsub.cons₂ c
      · rw [hval]; simpa using hlen
      · rw [hval]; simpa using hperm.cons c

theorem scRemovalLoop_main (d : Nat) (cards : List Card)
    (hp : ∃ c ∈ cards, c.kind = .action .secondChance)
    (hq : ∃ c ∈ cards, isDupNumberCard (some d) c = true) :
    (scRemovalLoop (some d) cards false false).1.Sublist cards ∧
    (scRemovalLoop (some d) cards false false).1.length + 2 = cards.length ∧
    cards.Perm ((scRemovalLoop (some d) cards false false).1 ++
      (scRemovalLoop (some d) cards false false).2) ∧
    (scRemovalLoop (some d) cards false false).2.countP
      (fun c => decide (c.kind = .action .secondChance)) = 1 ∧
    (scRemovalLoop (some d) cards false false).2.countP
      (fun c => isDupNumberCard (some d) c) = 1 ∧
    (scRemovalLoop (some d) cards false false).2.length = 2 := by
  induction cards with
  | nil => simp at hp
  | cons c rest ih =>
    by_cases hpc : c.kind = .action .secondChance
    · have hval : scRemovalLoop (some d) (c :: rest) false false =
          ((scRemovalLoop (some d) rest false true).1,
           c :: (scRemovalLoop (some d) rest false true).2) := by
        rw [scRemovalLoop_cons]
        rw [if_pos ⟨hpc, rfl⟩]
      have hq' : ∃ c' ∈ rest, isDupNumberCard (some d) c' = true := by
        obtain ⟨x, hx, hxq⟩ := hq
        rcases List.mem_cons.mp hx with rfl | hr
        · exact absurd hpc (dup_not_sc hxq)
        · exact ⟨x, hr, hxq⟩
      obtain ⟨q, hqq, hrem, hsub, hlen, hperm⟩ := scRemovalLoop_dupOnly d rest hq'
      refine ⟨?_, ?_, ?_, ?_, ?_, ?_⟩
      · rw [hval]; exact hsub.cons c
      · rw [hval]; simpa using hlen
      · rw [hval, hrem]
        have h2 := hperm.cons c
        have h3 : (c :: ((scRemovalLoop (some d) rest false true).1 ++ [q])).Perm
            ((scRemovalLoop (some d) rest false true).1 ++ c :: [q]) :=
          List.perm_middle.symm
        exact h2.trans h3
      · rw [hval, hrem]
        simp [List.countP_cons, hpc, dup_not_sc hqq]
      · rw [hval, hrem]
        simp [List.countP_cons, hqq, sc_not_dup hpc]
      · rw [hval, hrem]; rfl
    · by_cases hqc : isDupNumberCard (some d) c = true
      · have hval : scRemovalLoop (some d) (c :: rest) false false =
            ((scRemovalLoop (some d) rest true false).1,
             c :: (scRemovalLoop (some d) rest true false).2) := by
          rw [scRemovalLoop_cons]
          rw [if_neg (by simp [hpc]), if_pos ⟨hqc, rfl⟩]
        have hp' : ∃ c' ∈ rest, c'.kind = .action .secondChance := by
          obtain ⟨x, hx, hxp⟩ := hp
          rcases List.mem_cons.mp hx with rfl | hr
          · exact absurd hxp hpc
          · exact ⟨x, hr, hxp⟩
        obtain ⟨q, hqq, hrem, hsub, hlen, hperm⟩ := scRemovalLoop_scOnly (some d) rest hp'
        refine ⟨?_, ?_, ?_, ?_, ?_, ?_⟩
        · rw [hval]; exact hsub.cons c
        · rw [hval]; simpa using hlen
        · rw [hval, hrem]
          have h2 := hperm.cons c
          have h3 : (c :: ((scRemovalLoop (some d) rest true false).1 ++ [q])).Perm
              ((scRemovalLoop (some d) rest true false).1 ++ c :: [q]) :=
            List.perm_middle.symm
          exact h2.trans h3
        · rw [hval, hrem]
          simp [List.countP_cons, hpc, hqq]
        · rw [hval, hrem]
          simp [List.countP_cons, hqc, sc_not_dup hqq]
        · rw [hval, hrem]; rfl
      · have hval : scRemovalLoop (some d) (c :: rest) false false =
            (c :: (scRemovalLoop (some d) rest false false).1,
             (scRemovalLoop (some d) rest false false).2) := by
          rw [scRemovalLoop_cons]
          rw [if_neg (by simp [hpc]), if_neg (by simp [hqc])]
        have hp' : ∃ c' ∈ rest, c'.kind = .action .secondChance := by
          obtain ⟨x, hx, hxp⟩ := hp
          rcases List.mem_cons.mp hx with rfl | hr
          · exact absurd hxp hpc
          · exact ⟨x, hr, hxp⟩
        have hq' : ∃ c' ∈ rest, isDupNumberCard (some d) c' = true := by
          obtain ⟨x, hx, hxq⟩ := hq
          rcases List.mem_cons.mp hx with rfl | hr
          · exact absurd hxq hqc
          · exact ⟨x, hr, hxq⟩
        obtain ⟨hsub, hlen, hperm, hcp, hcq, hrl⟩ := ih hp' hq'
        refine ⟨?_, ?_, ?_, ?_, ?_, ?_⟩
        · rw [hval]; exact hsub.cons₂ c
        · rw [hval]; simpa using hlen
        · rw [hval]; simpa using hperm.cons c
        · rw [hval]; exact hcp
        · rw [hval]; exact hcq
        · rw [hval]; exact hrl

theorem mem_numberValues_exists_card {cards : List Card} {d : Nat}
    (h : d ∈ numberValues cards) :
    ∃ c ∈ cards, isDupNumberCard (some d) c = true := by
  unfold numberValues at h
  obtain ⟨c, hc, hcd⟩ := List.mem_filterMap.mp h
  refine ⟨c, hc, ?_⟩
  unfold isDupNumberCard
  cases hk : c.kind with
  | number v =>
    rw [hk] at hcd
    simp at hcd
    simp [hcd]
  | action a => rw [hk] at hcd; simp at hcd
  | modifier m => rw [hk] at hcd; simp at hcd

/-- C2: on a hand with a Second Chance card and a duplicated number
value, `applySecondChance` reports the first-encountered duplicated
value `d`, returns a subsequence of the hand that is exactly two cards
shorter, and the two removed cards are one Second Chance card and one
card of value `d` — everything else, further copies of `d` included, is
kept (the hand is a permutation of kept ++ removed). -/
theorem applySecondChance_removes_exactly_two (cards : List Card)
    (hsc : canUseSecondChance cards = true)
    (hdup : ¬ (numberValues cards).Nodup) :
    ∃ d, (applySecondChance cards).duplicateNumber = some d ∧
      FirstDuplicatedValue (numberValues cards) d ∧
      (applySecondChance cards).newCards.Sublist cards ∧
      (applySecondChance cards).newCards.length + 2 = cards.length ∧
      cards.Perm ((applySecondChance cards).newCards ++
        (applySecondChance cards).removedCards) ∧
      (applySecondChance cards).removedCards.countP
        (fun c => decide (c.kind = .action .secondChance)) = 1 ∧
      (applySecondChance cards).removedCards.countP
        (fun c => isDupNumberCard (some d) c) = 1 ∧
      (applySecondChance cards).removedCards.length = 2 := by
  obtain ⟨d, hd⟩ : ∃ d, findDuplicate [] (numberValues cards) = some d := by
    cases h : findDuplicate [] (numberValues cards) with
    | none => exact absurd (findDuplicate_none _ _ h).1 hdup
    | some d => exact ⟨d, rfl⟩
  obtain ⟨pre, post, heq, hmem, _, hnd⟩ := findDuplicate_sound _ [] d hd
  have hfirst : FirstDuplicatedValue (numberValues cards) d := by
    refine ⟨pre, post, heq, ?_, hnd⟩
    rcases hmem with h | h
    · exact absurd h (List.not_mem_nil d)
    · exact h
  have hdmem : d ∈ numberValues cards := by
    rw [heq]; exact List.mem_append_right _ (List.mem_cons_self _ _)
  have hq := mem_numberValues_exists_card hdmem
  have hp : ∃ c ∈ cards, c.kind = .action .secondChance := by
    unfold canUseSecondChance at hsc
    obtain ⟨c, hc, hcp⟩ := List.any_eq_true.mp hsc
    exact ⟨c, hc, of_decide_eq_true hcp⟩
  obtain ⟨hsub, hlen, hperm, hcp, hcq, hrl⟩ := scRemovalLoop_main d cards hp hq
  refine ⟨d, ?_, hfirst, ?_, ?_, ?_, ?_, ?_, ?_⟩ <;>
    simp only [applySecondChance, hd]
  · exact hsub
  · exact hlen
  · exact hperm
  · exact hcp
  · exact hcq
  · exact hrl

/-- A hand with a Second Chance card and a duplicated 3 (three copies)
instantiating C2. -/
def scWitnessHand : List Card :=
  [numCard "b1" 3,
   { id := "sc", kind := .action .secondChance, isVisible := true },
   numCard "b2" 5, numCard "b3" 3, numCard "b4" 3]

theorem applySecondChance_removes_exactly_two_witness :
    canUseSecondChance scWitnessHand = true ∧
    ¬ (numberValues scWitnessHand).Nodup ∧
    (applySecondChance scWitnessHand).newCards.length + 2 = scWitnessHand.length ∧
    (applySecondChance scWitnessHand).removedCards.length = 2 := by
  obtain ⟨d, _, _, _, hlen, _, _, _, hrl⟩ :=
    applySecondChance_removes_exactly_two scWitnessHand (by decide) (by decide)
  exact ⟨by decide, by decide, hlen, hrl⟩

/-! ## C6 -/

/-- Stated from the claim's words, independently of the comparator: `a`
strictly precedes `b` under descending total score, then descending
round score, then ascending hand length. -/
def specPrecedes (a b : String × Player) : Bool :=
  decide (b.2.totalScore < a.2.totalScore) ||
    (decide (a.2.totalScore = b.2.totalScore) && decide (b.2.roundScore < a.2.roundScore)) ||
    (decide (a.2.totalScore = b.2.totalScore) && decide (a.2.roundScore = b.2.roundScore) &&
       decide (a.2.hand.length < b.2.hand.length))

/-- Stated from the claim's words: scan the entries in order and keep
the current best, replacing it only when a later entry strictly
precedes it — the first entry of the single ordering. -/
def firstByOrdering (l : List (String × Player)) : Option String :=
  match l with
  | [] => none
  | h :: t => some ((t.foldl (fun best q => if specPrecedes q best then q else best) h).1)

theorem winnerBeats_eq_spec (a b : String × Player) :
    winnerBeats a b = specPrecedes a b := by
  unfold winnerBeats specPrecedes
  by_cases h1 : a.2.totalScore = b.2.totalScore
  · by_cases h2 : a.2.roundScore = b.2.roundScore
    · simp [h1, h2]
    · simp [h1, h2]
  · simp [h1]

/-- The head evolution of one stable-insertion step. -/
def scanBest (acc : Option (String × Player)) (x : String × Player) :
    Option (String × Player) :=
  some (match acc with
        | none => x
        | some y => if winnerBeats x y then x else y)

theorem head?_insertSorted (x : String × Player) (s : List (String × Player)) :
    (insertSorted x s).head? = scanBest s.head? x := by
  cases s with
  | nil => rfl
  | cons y l =>
    unfold insertSorted scanBest
    by_cases h : winnerBeats x y = true
    · rw [if_pos h]; simp [h]
    · rw [if_neg h]; simp [h]

theorem sortPlayers_go_head (l : List (String × Player)) :
    ∀ s : List (String × Player),
      (l.foldl (fun acc x => insertSorted x acc) s).head? = l.foldl scanBest s.head? := by
  induction l with
  | nil => intro s; rfl
  | cons x rest ih =>
    intro s
    simp only [List.foldl_cons]
    rw [ih (insertSorted x s), head?_insertSorted]

theorem sortPlayers_head (l : List (String × Player)) :
    (sortPlayers l).head? = l.foldl scanBest none := by
  unfold sortPlayers
  rw [sortPlayers_go_head]
  rfl

theorem foldl_scanBest_some (t : List (String × Player)) :
    ∀ h : String × Player,
      t.foldl scanBest (some h) =
        some (t.foldl (fun best q => if winnerBeats q best then q else best) h) := by
  induction t with
  | nil => intro h; rfl
  | cons x rest ih =>
    intro h
    simp only [List.foldl_cons]
    rw [show scanBest (some h) x = some (if winnerBeats x h then x else h) from rfl]
    rw [ih]

theorem sortPlayers_head_firstByOrdering (l : List (String × Player)) :
    (sortPlayers l).head?.map Prod.fst = firstByOrdering l := by
  rw [sortPlayers_head]
  cases l with
  | nil => rfl
  | cons h t =>
    simp only [List.foldl_cons]
    rw [show scanBest none h = some h from rfl, foldl_scanBest_some]
    unfold firstByOrdering
    have hfun : (fun (best q : String × Player) => if winnerBeats q best then q else best) =
        (fun best q => if specPrecedes q best then q else best) := by
      funext best q
      rw [winnerBeats_eq_spec]
    rw [hfun]
    rfl

/-- C6: whenever `endRound` ends the game (its result's state is
`gameOver`), the stored winner is the first player of the finalized
standings under the spec's single ordering — descending `totalScore`,
then descending `roundScore`, then ascending hand length. -/
theorem endRound_gameOver_winner_first_by_ordering (room : Room)
    (players : List (String × Player)) (winnerArg : Option String)
    (r : GameActionResult) (ur : Room)
    (hok : endRound room players winnerArg = .ok r)
    (hur : r.updatedRoom = some ur)
    (hgo : ur.state = .gameOver) :
    ur.winner = firstByOrdering (finalizeRound players) := by
  rw [← sortPlayers_head_firstByOrdering]
  unfold endRound at hok
  simp only [bind, Except.bind, pure, Except.pure] at hok
  by_cases hio : (decide (0 < (List.filter (fun e => decide (200 ≤ e.2.totalScore))
      (sortPlayers (finalizeRound players))).length) ||
      decide (MAX_ROUNDS ≤ room.round)) = true
  · rw [if_pos hio] at hok
    split at hok
    · exact absurd hok (by simp)
    · rename_i top hhead
      rw [hhead]
      try dsimp only at hok
      split at hok
      · try dsimp only at hok
        split at hok
        · exact absurd hok (by simp)
        · injection hok with h
          rw [← h] at hur
          dsimp only at hur
          obtain rfl := (Option.some.injEq _ _).mp hur.symm
          simp [orId]
      · try dsimp only at hok
        split at hok
        · exact absurd hok (by simp)
        · injection hok with h
          rw [← h] at hur
          dsimp only at hur
          obtain rfl := (Option.some.injEq _ _).mp hur.symm
          simp [orId]
  · rw [if_neg hio] at hok
    have hio' : (decide (0 < (List.filter (fun e => decide (200 ≤ e.2.totalScore))
        (sortPlayers (finalizeRound players))).length) ||
        decide (MAX_ROUNDS ≤ room.round)) = false := by
      simpa using hio
    have hA : decide (0 < (List.filter (fun e => decide (200 ≤ e.2.totalScore))
        (sortPlayers (finalizeRound players))).length) = false :=
      (Bool.or_eq_false_iff.mp hio').1
    have hB : decide (MAX_ROUNDS ≤ room.round) = false :=
      (Bool.or_eq_false_iff.mp hio').2
    exfalso
    try dsimp only at hok
    split at hok
    · try dsimp only at hok
      split at hok
      · exact absurd hok (by simp)
      · injection hok with h
        rw [← h] at hur
        dsimp only at hur
        obtain rfl := (Option.some.injEq _ _).mp hur.symm
        simp [hA, hB] at hgo
    · try dsimp only at hok
      injection hok with h
      rw [← h] at hur
      dsimp only at hur
      obtain rfl := (Option.some.injEq _ _).mp hur.symm
      simp [hA, hB] at hgo

theorem endRound_gameOver_winner_witness :
    ∃ r ur, endRound tieRoom tiePlayers none = .ok r ∧ r.updatedRoom = some ur ∧
      ur.state = .gameOver ∧
      ur.winner = firstByOrdering (finalizeRound tiePlayers) ∧
      ur.winner = some "p2" := by
  refine ⟨_, _, rfl, rfl, rfl, ?_, rfl⟩
  exact endRound_gameOver_winner_first_by_ordering tieRoom tiePlayers none _ _ rfl rfl rfl

/-! ## C9 and C10: the turn-order scan -/

theorem lookup_of_mem_nodup :
    ∀ (players : List (String × Player)),
      (players.map Prod.fst).Nodup → ∀ {k : String} {v : Player},
      (k, v) ∈ players → players.lookup k = some v := by
  intro players
  induction players with
  | nil => intro _ k v hmem; simp at hmem
  | cons e rest ih =>
    intro hnd k v hmem
    obtain ⟨e1, e2⟩ := e
    rw [show ((e1, e2) :: rest).map Prod.fst = e1 :: rest.map Prod.fst from rfl] at hnd
    obtain ⟨hni, hnd'⟩ := List.nodup_cons.mp hnd
    rcases List.mem_cons.mp hmem with heq | hr
    · injection heq with h1 h2
      subst h1
      subst h2
      simp [List.lookup]
    · have hkmem : k ∈ rest.map Prod.fst := by
        exact List.mem_map_of_mem Prod.fst hr
      have hne : ¬ (k == e1) = true := by
        intro h
        exact hni (beq_iff_eq.mp h ▸ hkmem)
      simp only [List.lookup]
      rw [Bool.eq_false_iff.mpr hne]
      exact ih hnd' hr

/-- Every index of the player list is visited by the scan loop of
`getNextActivePlayer`: for loop counters `i = k + 1` with `k < n`, the
probed indices `(currentIndex + i) mod n` cover all of `[0, n)`. -/
theorem scan_hits_index (c : Int) (n j : Nat) (hn : 0 < n) (hj : j < n) :
    ∃ k, k < n ∧ ((c + ((k + 1 : Nat) : Int)) % (n : Int)).toNat = j := by
  have hn' : (0 : Int) < (n : Int) := by exact_mod_cast hn
  have hnz : (n : Int) ≠ 0 := by omega
  have ht0 : 0 ≤ ((j : Int) - (c + 1)) % (n : Int) := Int.emod_nonneg _ hnz
  have htn : ((j : Int) - (c + 1)) % (n : Int) < (n : Int) := Int.emod_lt_of_pos _ hn'
  refine ⟨(((j : Int) - (c + 1)) % (n : Int)).toNat, by omega, ?_⟩
  have hcast : (((((j : Int) - (c + 1)) % (n : Int)).toNat : Int)) =
      ((j : Int) - (c + 1)) % (n : Int) := Int.toNat_of_nonneg ht0
  have hkey : (c + (((((j : Int) - (c + 1)) % (n : Int)).toNat + 1 : Nat) : Int)) % (n : Int)
      = (j : Int) := by
    push_cast
    rw [hcast]
    have h1 : c + (((j : Int) - (c + 1)) % (n : Int) + 1) =
        (c + 1) + (((j : Int) - (c + 1)) % (n : Int)) := by ring
    rw [h1, Int.add_emod (c + 1) _ (n : Int), Int.emod_emod_of_dvd _ dvd_rfl,
      ← Int.add_emod]
    have h2 : c + 1 + ((j : Int) - (c + 1)) = (j : Int) := by ring
    rw [h2]
    exact Int.emod_eq_of_lt (by omega) (by exact_mod_cast hj)
  rw [hkey]
  exact Int.toNat_natCast j

/-- C9 amended: when no Active player is frozen-skipped for the current
round, a null answer from `getNextActivePlayer` does imply the
round-ending condition: nobody is Active at all. (Key-uniqueness of the
player map, automatic for JS objects, is assumed.) -/
theorem next_active_none_implies_round_end (players : List (String × Player))
    (fromId : String) (r : Nat)
    (hnd : (players.map Prod.fst).Nodup)
    (hfr : ∀ e ∈ players, e.2.status = .active → gnaFrozenSkip e.2 (some r) = false)
    (hnone : getNextActivePlayer players fromId (some r) = none) :
    shouldEndRound players = true := by
  unfold shouldEndRound
  rw [decide_eq_true_eq, List.length_eq_zero, List.filter_eq_nil]
  intro e hmem
  rw [decide_eq_true_eq]
  intro hact
  obtain ⟨j, hj⟩ := List.mem_iff_get?.mp hmem
  have hjlt : j < players.length := (List.get?_eq_some.mp hj).1
  have hlen : (players.map Prod.fst).length = players.length := List.length_map _ _
  unfold getNextActivePlayer at hnone
  rw [List.findSome?_eq_none] at hnone
  obtain ⟨k, hk, hidx⟩ := scan_hits_index
    (if fromId ∈ players.map Prod.fst
      then ((players.map Prod.fst).indexOf fromId : Int) else -1)
    (players.map Prod.fst).length j (by omega) (by omega)
  have hprobe := hnone k (List.mem_range.mpr hk)
  unfold gnaProbe at hprobe
  rw [hidx] at hprobe
  dsimp only at hprobe
  have hgets : (players.map Prod.fst).get? j = some e.1 := by
    rw [List.get?_map, hj]
    rfl
  rw [hgets] at hprobe
  dsimp only at hprobe
  have hlook : players.lookup e.1 = some e.2 :=
    lookup_of_mem_nodup players hnd hmem
  rw [hlook] at hprobe
  dsimp only at hprobe
  rw [if_pos hact] at hprobe
  rw [if_neg (by rw [hfr e hmem hact]; exact Bool.false_ne_true)] at hprobe
  exact absurd hprobe (by simp)

/-- C10: when the acting player is the only eligible one, the scan
walks the whole order and comes back to the acting player: the loop
counter reaching `n` probes the acting player's own index, so the
result is the acting player, not null. -/
theorem next_active_wraps_to_self (players : List (String × Player))
    (fromId : String) (r : Nat) (p : Player)
    (hnd : (players.map Prod.fst).Nodup)
    (hmem : (fromId, p) ∈ players)
    (hact : p.status = .active)
    (hskip : gnaFrozenSkip p (some r) = false)
    (hothers : ∀ e ∈ players, e.1 ≠ fromId →
      ¬(e.2.status = .active ∧ gnaFrozenSkip e.2 (some r) = false)) :
    getNextActivePlayer players fromId (some r) = some fromId := by
  have hin : fromId ∈ players.map Prod.fst := by
    exact List.mem_map_of_mem Prod.fst hmem
  have hc : (players.map Prod.fst).indexOf fromId < (players.map Prod.fst).length :=
    List.indexOf_lt_length.mpr hin
  have hgetc : (players.map Prod.fst).get? ((players.map Prod.fst).indexOf fromId)
      = some fromId := List.indexOf_get? hin
  obtain ⟨m, hm⟩ : ∃ m, (players.map Prod.fst).length = m + 1 :=
    ⟨(players.map Prod.fst).length - 1, by omega⟩
  have hnz : (((m + 1 : Nat)) : Int) ≠ 0 := by
    have : (0 : Int) < ((m + 1 : Nat) : Int) := by exact_mod_cast Nat.succ_pos m
    omega
  unfold getNextActivePlayer
  dsimp only
  rw [if_pos hin, hm, List.range_succ, List.findSome?_append]
  have hleft : (List.range m).findSome?
      (gnaProbe players (players.map Prod.fst) (some r)
        ((players.map Prod.fst).indexOf fromId : Int) (m + 1)) = none := by
    rw [List.findSome?_eq_none]
    intro k hkmem
    have hk : k < m := List.mem_range.mp hkmem
    unfold gnaProbe
    have h0 : (0 : Int) ≤ (((players.map Prod.fst).indexOf fromId : Int) +
        ((k + 1 : Nat) : Int)) % ((m + 1 : Nat) : Int) := Int.emod_nonneg _ hnz
    have h1 : (((players.map Prod.fst).indexOf fromId : Int) +
        ((k + 1 : Nat) : Int)) % ((m + 1 : Nat) : Int) < ((m + 1 : Nat) : Int) :=
      Int.emod_lt_of_pos _ (by omega)
    set j := ((((players.map Prod.fst).indexOf fromId : Int) +
        ((k + 1 : Nat) : Int)) % ((m + 1 : Nat) : Int)).toNat with hjdef
    have hjlt : j < (players.map Prod.fst).length := by omega
    have hjne : j ≠ (players.map Prod.fst).indexOf fromId := by
      intro hje
      have hval : (((players.map Prod.fst).indexOf fromId : Int) +
          ((k + 1 : Nat) : Int)) % ((m + 1 : Nat) : Int)
          = ((players.map Prod.fst).indexOf fromId : Int) := by
        omega
      have hcm : ((players.map Prod.fst).indexOf fromId : Int) %
          ((m + 1 : Nat) : Int) = ((players.map Prod.fst).indexOf fromId : Int) :=
        Int.emod_eq_of_lt (Int.natCast_nonneg _) (by exact_mod_cast hm ▸ hc)
      have hsub := Int.emod_eq_emod_iff_emod_sub_eq_zero.mp (hval.trans hcm.symm)
      have hsub' : ((k + 1 : Nat) : Int) % ((m + 1 : Nat) : Int) = 0 := by
        have h3 : ((players.map Prod.fst).indexOf fromId : Int) +
            ((k + 1 : Nat) : Int) - ((players.map Prod.fst).indexOf fromId : Int)
            = ((k + 1 : Nat) : Int) := by ring
        rw [h3] at hsub
        exact hsub
      rw [Int.emod_eq_of_lt (by positivity) (by exact_mod_cast by omega)] at hsub'
      omega
    have hgj : (players.map Prod.fst).get? j =
        some ((players.map Prod.fst).get ⟨j, hjlt⟩) := List.get?_eq_get hjlt
    dsimp only
    rw [hgj]
    dsimp only
    have hple : j < players.length := by
      have := List.length_map players (Prod.fst (α := String) (β := Player))
      omega
    have hyfst : (players.map Prod.fst).get ⟨j, hjlt⟩ = (players.get ⟨j, hple⟩).1 := by
      rw [List.get_map]
    have hyne : (players.get ⟨j, hple⟩).1 ≠ fromId := by
      intro hfe
      obtain ⟨hclt, hceq⟩ := List.get?_eq_some.mp hgetc
      have hgg : (players.map Prod.fst).get ⟨j, hjlt⟩ =
          (players.map Prod.fst).get ⟨(players.map Prod.fst).indexOf fromId, hclt⟩ := by
        rw [hyfst, hfe, hceq]
      have := (hnd.get_inj_iff).mp hgg
      exact hjne (congrArg Fin.val this)
    have hlook : players.lookup ((players.get ⟨j, hple⟩).1) =
        some ((players.get ⟨j, hple⟩).2) :=
      lookup_of_mem_nodup players hnd (List.get_mem players j hple)
    rw [hyfst, hlook]
    dsimp only
    have hno := hothers (players.get ⟨j, hple⟩) (List.get_mem players j hple) hyne
    by_cases hst : (players.get ⟨j, hple⟩).2.status = PlayerStatus.active
    · rw [if_pos hst]
      by_cases hsk : gnaFrozenSkip (players.get ⟨j, hple⟩).2 (some r) = true
      · rw [if_pos hsk]
      · exact absurd ⟨hst, by simpa using hsk⟩ hno
    · rw [if_neg hst]
  rw [hleft, Option.none_or, List.findSome?_cons]
  have hmodc : ((((players.map Prod.fst).indexOf fromId : Int)) +
      ((m + 1 : Nat) : Int)) % ((m + 1 : Nat) : Int)
      = (((players.map Prod.fst).indexOf fromId : Int)) := by
    rw [Int.add_emod, Int.emod_self, add_zero, Int.emod_emod_of_dvd _ dvd_rfl]
    exact Int.emod_eq_of_lt (Int.natCast_nonneg _) (by exact_mod_cast hm ▸ hc)
  unfold gnaProbe
  dsimp only
  rw [hmodc, Int.toNat_natCast, hgetc]
  dsimp only
  have hlookf : players.lookup fromId = some p := lookup_of_mem_nodup players hnd hmem
  rw [hlookf]
  dsimp only
  rw [if_pos hact, if_neg (by rw [hskip]; exact Bool.false_ne_true)]

/-- Two stayed players: nobody is eligible and nobody is frozen, so
the amended C9 applies. -/
def allStayedPlayers : List (String × Player) :=
  [("A", { basePlayer "A" with status := .stayed }),
   ("B", { basePlayer "B" with status := .stayed })]

theorem next_active_none_implies_round_end_witness :
    shouldEndRound allStayedPlayers = true :=
  next_active_none_implies_round_end allStayedPlayers "A" 1
    (by decide) (by decide) (by rfl)

/-- One active player and one stayed player: scanning from the active
player wraps the full order back to them. -/
def soloActivePlayers : List (String × Player) :=
  [("p1", basePlayer "p1"), ("p2", { basePlayer "p2" with status := .stayed })]

theorem next_active_wraps_to_self_witness :
    getNextActivePlayer soloActivePlayers "p1" (some 1) = some "p1" :=
  next_active_wraps_to_self soloActivePlayers "p1" 1 (basePlayer "p1")
    (by decide) (by decide) (by decide) (by decide) (by decide)

end Flip7
